import Mathlib

/-!
Shallow embedding of the task data model and mutation engine of `src/app.py`
(a single-file tkinter to-do application).  The presentation layer (widgets,
dialogs, drag pixel tracking) is out of scope; each store operation is
modelled as a pure function on an explicit `TodoState`, with the values the
UI would supply (entry texts, dialog answers, selected ids, the final row
order of a drag, parsed import data) passed as parameters.  File writes in
`_save_tasks` never change in-memory state (a failure only pops a message
box), so persistence is modelled by its one in-memory effect: the
`order_index` renormalization.  Wall-clock reads (`time.time()`) are passed
in as integer parameters (`now_ms` for `int(time.time()*1000)`, `now_s` for
`time.time()`; timestamps are modelled as integers, since the code only
stores and compares them).
-/

namespace Todo

/-- `PRIORITIES = ["Low", "Medium", "High"]` from `app.py`. -/
def PRIORITIES : List String := ["Low", "Medium", "High"]

/-- `DATE_HINT = "YYYY-MM-DD"` from `app.py`. -/
def DATE_HINT : String := "YYYY-MM-DD"

/-! Python string primitives used by the app, modelled structurally over
the character list of a string (ASCII whitespace and case; the app's data
never exercises the non-ASCII corners of `str.strip`, `str.lower` or
`int`). -/

/-- The whitespace characters `str.strip()` removes (ASCII part). -/
def isPySpace (c : Char) : Bool :=
  c = ' ' || c = '\t' || c = '\n' || c = '\r' || c = '\x0b' || c = '\x0c'

/-- Python `s.strip()`. -/
def pyStrip (s : String) : String :=
  ⟨((s.data.dropWhile isPySpace).reverse.dropWhile isPySpace).reverse⟩

/-- Python `s.split(sep)` for a one-character separator, over character
lists: `"".split(",") == [""]`, separators at the ends produce empty
fields. -/
def splitOnCharList (sep : Char) : List Char → List (List Char)
  | [] => [[]]
  | c :: cs =>
      match splitOnCharList sep cs, decide (c = sep) with
      | groups, true => [] :: groups
      | g :: gs, false => (c :: g) :: gs
      | [], false => [[c]]

/-- Python `s.split(",")`. -/
def pySplitComma (s : String) : List String :=
  (splitOnCharList ',' s.data).map (fun l => ⟨l⟩)

/-- Python `s.lower()` (ASCII case folding). -/
def pyLower (s : String) : String :=
  ⟨s.data.map (fun c => if 'A' ≤ c && c ≤ 'Z' then Char.ofNat (c.toNat + 32) else c)⟩

/-- One decimal digit. -/
def digVal (c : Char) : Option Nat :=
  if '0' ≤ c && c ≤ '9' then some (c.toNat - 48) else none

/-- Accumulate decimal digits; any non-digit raises (`none`). -/
def parseDigits : List Char → Nat → Option Nat
  | [], acc => some acc
  | c :: cs, acc =>
      match digVal c with
      | none => none
      | some d => parseDigits cs (acc * 10 + d)

/-- Python `int(str)`: surrounding whitespace allowed, then an optionally
signed nonempty decimal numeral; anything else raises `ValueError`. -/
def pyIntParse (s : String) : Option Int :=
  match (pyStrip s).data with
  | [] => none
  | '-' :: cs =>
      (match cs with
       | [] => none
       | _ => (parseDigits cs 0).map (fun n => -(n : Int)))
  | '+' :: cs =>
      (match cs with
       | [] => none
       | _ => (parseDigits cs 0).map (fun n => (n : Int)))
  | cs => (parseDigits cs 0).map (fun n => (n : Int))

/-- The `Task` entity of `app.py` (well-typed fields, as produced by
`Task.__init__` from well-typed arguments). -/
structure Task where
  id : Int
  text : String
  completed : Bool
  created_at : Int
  priority : String
  due_date : String
  tags : List String
  order_index : Int
deriving DecidableEq, Repr

/-- `Task.__init__`: stores the arguments, coercing `priority` to
`"Medium"` when it is not one of `PRIORITIES`.  The Python `tags or []`
is the identity on list-typed arguments (`[] or []` is `[]`), and
`created_at` is always supplied by the callers modelled here. -/
def Task.make (task_id : Int) (text : String) (completed : Bool) (created_at : Int)
    (priority : String) (due_date : String) (tags : List String) (order_index : Int) : Task :=
  { id := task_id
    text := text
    completed := completed
    created_at := created_at
    priority := if priority ∈ PRIORITIES then priority else "Medium"
    due_date := due_date
    tags := tags
    order_index := order_index }

/-- A serialized task record: the dictionary produced by `Task.to_dict` or
fed to `Task.from_dict`.  Each key may be absent (`none`), in which case
`dict.get` returns the default. -/
structure TaskRec where
  id : Option Int
  text : Option String
  completed : Option Bool
  created_at : Option Int
  priority : Option String
  due_date : Option String
  tags : Option (List String)
  order_index : Option Int
deriving DecidableEq, Repr

/-- `Task.to_dict`: every key present. -/
def Task.to_dict (t : Task) : TaskRec :=
  { id := some t.id
    text := some t.text
    completed := some t.completed
    created_at := some t.created_at
    priority := some t.priority
    due_date := some t.due_date
    tags := some t.tags
    order_index := some t.order_index }

/-- `Task.from_dict`: `data.get` with the defaults of `app.py` (missing id
defaults to `int(time.time()*1000)`, missing `created_at` to `time.time()`),
then the `Task` constructor.  `data.get("tags", []) or []` is `getD []` for
a list-typed value. -/
def Task.from_dict (now_ms now_s : Int) (d : TaskRec) : Task :=
  Task.make (d.id.getD now_ms) (d.text.getD "") (d.completed.getD false)
    (d.created_at.getD now_s) (d.priority.getD "Medium") (d.due_date.getD "")
    (d.tags.getD []) (d.order_index.getD 0)

/-- The one invariant `Task.__init__` enforces on every Python `Task`
object: the stored priority is in the enum. -/
def Task.validPriority (t : Task) : Prop := t.priority ∈ PRIORITIES

instance (t : Task) : Decidable t.validPriority := by
  unfold Task.validPriority; infer_instance

/-- The mutable state of `TodoApp` that the core operations touch:
the task list and the two snapshot stacks.  Python pushes with `append`
and pops from the end; here the head of the list is the top of the
stack (the same abstract stack). -/
structure TodoState where
  tasks : List Task
  undo_stack : List (List TaskRec)
  redo_stack : List (List TaskRec)
deriving DecidableEq, Repr

/-- `[t.to_dict() for t in self.tasks]`. -/
def serializeAll (ts : List Task) : List TaskRec := ts.map Task.to_dict

/-- Strict lexicographic order on `(order_index, list position)` sort
keys. -/
def keyLt (a b : Int × Nat) : Prop := a.1 < b.1 ∨ (a.1 = b.1 ∧ a.2 < b.2)

/-- Weak lexicographic order on sort keys. -/
def keyLe (a b : Int × Nat) : Prop := a.1 < b.1 ∨ (a.1 = b.1 ∧ a.2 ≤ b.2)

instance : DecidableRel keyLt := fun a b => by unfold keyLt; infer_instance

instance : DecidableRel keyLe := fun a b => by unfold keyLe; infer_instance

instance : IsTotal (Int × Nat) keyLe := ⟨fun a b => by unfold keyLe; omega⟩

instance : IsTrans (Int × Nat) keyLe := ⟨fun a b c h1 h2 => by unfold keyLe at *; omega⟩

/-- The sort key Python's stable `sorted(self.tasks, key=lambda t:
t.order_index)` effectively orders by: the `order_index` first, ties broken
by list position (that is what stability means). -/
def keyOf (p : Nat × Task) : Int × Nat := (p.2.order_index, p.1)

/-- `stableBefore p q` says the enumerated task `q` lands strictly before
`p` in Python's stable sort by `order_index`: it has a smaller
`order_index`, or an equal one and an earlier list position. -/
def stableBefore (p q : Nat × Task) : Prop := keyLt (keyOf q) (keyOf p)

instance : ∀ p q, Decidable (stableBefore p q) := fun p q => by
  unfold stableBefore; infer_instance

/-- The `order_index` resequencing loop of `TodoApp._save_tasks` (also
inlined in `delete_selected_tasks`): each task object, kept at its list
position, receives as `order_index` its rank in the stable sort of the
list by the old `order_index`. -/
def renormalize (ts : List Task) : List Task :=
  ts.enum.map (fun p =>
    { p.2 with order_index := ((ts.enum.filter (fun q => stableBefore p q)).length : Int) })

/-- `TodoApp._save_tasks`: resequences `order_index` and writes the file;
the write has no in-memory effect (failures only show a message box). -/
def saveTasks (s : TodoState) : TodoState := { s with tasks := renormalize s.tasks }

/-- `TodoApp._save_snapshot`: push the serialized current collection on the
undo stack and clear the redo stack. -/
def saveSnapshot (s : TodoState) : TodoState :=
  { s with undo_stack := serializeAll s.tasks :: s.undo_stack, redo_stack := [] }

/-- `TodoApp.undo`. -/
def undo (now_ms now_s : Int) (s : TodoState) : TodoState :=
  match s.undo_stack with
  | [] => s
  | prev :: rest =>
      saveTasks
        { tasks := prev.map (Task.from_dict now_ms now_s)
          undo_stack := rest
          redo_stack := serializeAll s.tasks :: s.redo_stack }

/-- `TodoApp.redo`. -/
def redo (now_ms now_s : Int) (s : TodoState) : TodoState :=
  match s.redo_stack with
  | [] => s
  | next_state :: rest =>
      saveTasks
        { tasks := next_state.map (Task.from_dict now_ms now_s)
          undo_stack := serializeAll s.tasks :: s.undo_stack
          redo_stack := rest }

/-- `[t.strip() for t in text.split(",") if t.strip()]` — the tag parsing
used by add, edit and CSV import. -/
def splitTags (tags_text : String) : List String :=
  ((pySplitComma tags_text).map pyStrip).filter (fun t => t ≠ "")

/-- `TodoApp.add_task`.  Parameters are the raw contents of the add-entry,
priority combobox, due-date entry and tags entry.  The second component is
the validation message shown to the user (the blank-text path of the source
returns without showing any message). -/
def add_task (now_ms now_s : Int) (entry_text prio_box due_entry tags_entry : String)
    (s : TodoState) : TodoState × Option String :=
  let text := pyStrip entry_text
  if text = "" then (s, none)
  else
    let priority := if prio_box = "" then "Medium" else prio_box
    let due0 := pyStrip due_entry
    let due := if due0 = DATE_HINT then "" else due0
    let tags_text := pyStrip tags_entry
    let tags := if tags_text = "" then [] else splitTags tags_text
    let order_index := (s.tasks.length : Int)
    let s1 := saveSnapshot s
    (saveTasks
      { s1 with
        tasks := s1.tasks ++ [Task.make now_ms text false now_s priority due tags order_index] },
     none)

/-- Replace the first task with the given id (Python mutates the single
object found by `next(t for t in self.tasks if t.id == ids[0])`). -/
def updateFirst (tid : Int) (f : Task → Task) : List Task → List Task
  | [] => []
  | t :: ts => if t.id = tid then f t :: ts else t :: updateFirst tid f ts

/-- The field updates of `edit_selected_task` applied to the found task:
cancelled dialogs (`none`) keep the old value, an out-of-enum priority
keeps the old priority, tags are re-parsed.  (`task.due_date = new_due or
""` is the identity on strings.) -/
def applyEdit (new_text : String) (new_due new_pri new_tags : Option String) (t : Task) : Task :=
  { t with
    text := new_text
    due_date := (match new_due with | none => t.due_date | some d => d)
    priority :=
      (match new_pri with
       | some p => if p ∈ PRIORITIES then p else t.priority
       | none => t.priority)
    tags := (match new_tags with | none => t.tags | some str => splitTags str) }

/-- `TodoApp.edit_selected_task` for a selection whose first id is `tid`;
the dialog answers are passed as parameters (`none` = cancelled).  The
second component is the warning message shown on empty edited text. -/
def edit_task (tid : Int) (new_text new_due new_pri new_tags : Option String)
    (s : TodoState) : TodoState × Option String :=
  match s.tasks.find? (fun t => t.id = tid) with
  | none => (s, none)
  | some _ =>
      match new_text with
      | none => (s, none)
      | some nt0 =>
          let nt := pyStrip nt0
          if nt = "" then (s, some "Task text cannot be empty.")
          else
            let s1 := saveSnapshot s
            (saveTasks
              { s1 with tasks := updateFirst tid (applyEdit nt new_due new_pri new_tags) s1.tasks },
             none)

/-- `TodoApp.toggle_selected_tasks` with the selected id set. -/
def toggle_selected (ids : List Int) (s : TodoState) : TodoState :=
  if ids.isEmpty then s
  else
    let s1 := saveSnapshot s
    saveTasks
      { s1 with
        tasks := s1.tasks.map (fun t =>
          if t.id ∈ ids then { t with completed := !t.completed } else t) }

/-- `TodoApp.delete_selected_tasks` with the selected id set (the source
resequences `order_index` inline and then again inside `_save_tasks`). -/
def delete_selected (ids : List Int) (s : TodoState) : TodoState :=
  if ids.isEmpty then s
  else
    let s1 := saveSnapshot s
    saveTasks { s1 with tasks := renormalize (s1.tasks.filter (fun t => t.id ∉ ids)) }

/-- The dict comprehension `{task_id: idx for idx, task_id in
enumerate(ordered_ids)}`: an association list where a later occurrence of
an id shadows an earlier one. -/
def orderMap (ordered_ids : List Int) : List (Int × Nat) :=
  (ordered_ids.enum.map (fun p => (p.2, p.1))).reverse

/-- `TodoApp._on_tree_button_release` after a completed drag gesture, with
`ordered_ids` the final on-screen row order (`self.tree.get_children("")`):
tasks whose id appears in the sequence get its position as `order_index`,
the others keep their old `order_index`; then `_save_tasks` resequences. -/
def reorder (ordered_ids : List Int) (s : TodoState) : TodoState :=
  let s1 := saveSnapshot s
  saveTasks
    { s1 with
      tasks := s1.tasks.map (fun t =>
        match (orderMap ordered_ids).lookup t.id with
        | some idx => { t with order_index := (idx : Int) }
        | none => t) }

/-- One element of a parsed JSON array: either a dict (projected onto the
record keys `from_dict` reads) or a non-dict value, which the import
comprehension skips. -/
inductive JItem where
  | dict (d : TaskRec)
  | other
deriving Repr

/-- The result of `json.load` on an import file: a list, a well-formed
non-list value (`raise ValueError` before any state change), or a parse
failure (also before any state change). -/
inductive JTop where
  | arr (items : List JItem)
  | nonArray
  | parseError
deriving Repr

/-- `TodoApp.import_json` with the parsed file contents.  A non-list or
unparsable file raises before the snapshot, leaving the state unchanged;
a list is imported wholesale, non-dict items skipped. -/
def import_json (now_ms now_s : Int) (data : JTop) (s : TodoState) : TodoState :=
  match data with
  | .nonArray => s
  | .parseError => s
  | .arr items =>
      let s1 := saveSnapshot s
      saveTasks
        { s1 with
          tasks := items.filterMap (fun it =>
            match it with
            | .dict d => some (Task.from_dict now_ms now_s d)
            | .other => none) }

/-- One row of `csv.DictReader`: each named column is present with a string
value or absent (`row.get(key, default)` then returns the default). -/
structure CsvRow where
  id : Option String
  text : Option String
  completed : Option String
  created_at : Option String
  priority : Option String
  due_date : Option String
  tags : Option String
  order_index : Option String
deriving DecidableEq, Repr

/-- `row.get("completed", "").strip().lower() in ("1", "true", "yes", "y")`. -/
def csvTruthy (v : String) : Bool :=
  decide (pyLower (pyStrip v) ∈ ["1", "true", "yes", "y"])

/-- The row loop of `TodoApp.import_csv`, appending to `self.tasks` (which
the caller has just reset to `[]`).  `int(row.get("order_index",
len(self.tasks)))` raises on an unparsable value, aborting the loop with
the rows appended so far (`Except.error`).  The id is `int(time.time()*1000)
+ len(self.tasks)`; `nmf k` is the clock reading when the `k`-th task is
built and `now_s` the corresponding `time.time()` reading. -/
def importCsvLoop (nmf : Nat → Int) (now_s : Int) :
    List CsvRow → List Task → Except (List Task) (List Task)
  | [], acc => .ok acc
  | row :: rest, acc =>
      match (match row.order_index with
             | some str => pyIntParse str
             | none => some (acc.length : Int)) with
      | none => .error acc
      | some oi =>
          importCsvLoop nmf now_s rest
            (acc ++ [Task.make (nmf acc.length + acc.length) (row.text.getD "")
              (csvTruthy (row.completed.getD "")) now_s (row.priority.getD "Medium")
              (row.due_date.getD "") (splitTags (row.tags.getD "")) oi])

/-- `TodoApp.import_csv` with the parsed rows.  The snapshot is taken and
`self.tasks` cleared before the loop; a row failure leaves the partially
rebuilt list in place (the exception skips `_save_tasks`), while a
completed loop is followed by `_save_tasks`. -/
def import_csv (nmf : Nat → Int) (now_s : Int) (rows : List CsvRow) (s : TodoState) : TodoState :=
  let s1 := saveSnapshot s
  match importCsvLoop nmf now_s rows [] with
  | .ok ts => saveTasks { s1 with tasks := ts }
  | .error sofar => { s1 with tasks := sofar }

/-- The forward (non-undo/redo) store operations, with the external inputs
each one consumes. -/
inductive Op where
  | add (now_ms now_s : Int) (entry_text prio_box due_entry tags_entry : String)
  | edit (tid : Int) (new_text new_due new_pri new_tags : Option String)
  | toggle (ids : List Int)
  | delete (ids : List Int)
  | reorder (ordered_ids : List Int)
  | importJson (now_ms now_s : Int) (data : JTop)
  | importCsv (nmf : Nat → Int) (now_s : Int) (rows : List CsvRow)

/-- Run a forward operation (dropping the message channel). -/
def Op.apply : Op → TodoState → TodoState
  | .add nm ns a b c d, s => (add_task nm ns a b c d s).1
  | .edit tid nt nd np ng, s => (edit_task tid nt nd np ng s).1
  | .toggle ids, s => toggle_selected ids s
  | .delete ids, s => delete_selected ids s
  | .reorder ids, s => Todo.reorder ids s
  | .importJson nm ns d, s => import_json nm ns d s
  | .importCsv nmf ns rows, s => import_csv nmf ns rows s

/-- Whether the invocation takes the code path through `_save_snapshot`
(the other paths return before touching any state). -/
def Op.recordsSnapshot : Op → TodoState → Bool
  | .add _ _ entry_text _ _ _, _ => pyStrip entry_text ≠ ""
  | .edit tid nt _ _ _, s =>
      (s.tasks.find? (fun t => t.id = tid)).isSome &&
        (match nt with | none => false | some nt0 => pyStrip nt0 ≠ "")
  | .toggle ids, _ => !ids.isEmpty
  | .delete ids, _ => !ids.isEmpty
  | .reorder _, _ => true
  | .importJson _ _ d, _ => (match d with | .arr _ => true | _ => false)
  | .importCsv _ _ _, _ => true

/-- Whether the invocation runs to completion without an exception
interrupting it after it has begun mutating (only the CSV import row loop
can be interrupted that way). -/
def Op.completesNormally : Op → TodoState → Bool
  | .importCsv nmf ns rows, _ => (importCsvLoop nmf ns rows []).isOk
  | _, _ => true

/-- A store-level mutation as listed by the spec: a forward operation,
an undo or a redo. -/
inductive FullOp where
  | fwd (op : Op)
  | undoOp (now_ms now_s : Int)
  | redoOp (now_ms now_s : Int)

def FullOp.apply : FullOp → TodoState → TodoState
  | .fwd op, s => op.apply s
  | .undoOp nm ns, s => undo nm ns s
  | .redoOp nm ns, s => redo nm ns s

/-- Whether the invocation takes a path that touches the state at all. -/
def FullOp.mutates : FullOp → TodoState → Bool
  | .fwd op, s => op.recordsSnapshot s
  | .undoOp _ _, s => !s.undo_stack.isEmpty
  | .redoOp _ _, s => !s.redo_stack.isEmpty

def FullOp.normal : FullOp → TodoState → Bool
  | .fwd op, s => op.completesNormally s
  | .undoOp _ _, _ => true
  | .redoOp _ _, _ => true

/-- The canonical display comparison: Python's tuple comparison on the sort
key `(t.order_index, t.created_at, t.id)`. -/
def canonLe (a b : Task) : Prop :=
  a.order_index < b.order_index ∨
    (a.order_index = b.order_index ∧
      (a.created_at < b.created_at ∨ (a.created_at = b.created_at ∧ a.id ≤ b.id)))

instance : DecidableRel canonLe := fun a b => by unfold canonLe; infer_instance

instance : IsTotal Task canonLe :=
  ⟨fun a b => by unfold canonLe; omega⟩

instance : IsTrans Task canonLe :=
  ⟨fun a b c hab hbc => by unfold canonLe at *; omega⟩

/-- `sorted(self.tasks, key=lambda t: (t.order_index, t.created_at, t.id))`
— the ordering used by `_refresh_tree` and `_load_tasks`. -/
def displayList (ts : List Task) : List Task := ts.insertionSort canonLe

/-- `[0, 1, ..., n-1]` as integers. -/
def rangeInt (n : Nat) : List Int := (List.range n).map (fun k : Nat => (k : Int))

/-- The §3 invariant: read in display order, the `order_index` values are
exactly `0, 1, ..., N-1`. -/
def displayOrderOk (ts : List Task) : Prop :=
  (displayList ts).map (fun t => t.order_index) = rangeInt ts.length

instance (ts : List Task) : Decidable (displayOrderOk ts) := by
  unfold displayOrderOk; infer_instance

/-! ### Ranks of a stable sort

`renormalize` assigns each task the rank of its `(order_index, position)`
key under the strict lexicographic order — the index `enumerate(sorted(...))`
would pair it with.  The lemmas here show these ranks are exactly
`0 .. N-1`, and that a list whose `order_index` values are already a
permutation of `0 .. N-1` is left unchanged. -/

/-- The rank of `x` in `l`: how many entries of `l` lie strictly below
it. -/
def rankIn (l : List (Int × Nat)) (x : Int × Nat) : Nat :=
  (l.filter (fun y => keyLt y x)).length

/-- All tasks of the list carry a legal priority. -/
def tasksValid (ts : List Task) : Prop := ∀ t ∈ ts, t.validPriority

instance (ts : List Task) : Decidable (tasksValid ts) := by
  unfold tasksValid; infer_instance

/-- The task list left in `self.tasks` by the CSV row loop, whether it
finished (`ok`) or was aborted by a row failure (`error`). -/
def exceptOut (r : Except (List Task) (List Task)) : List Task :=
  match r with
  | .ok l => l
  | .error l => l

/-- No task of the list has an empty string among its tags. -/
def tagsClean (ts : List Task) : Prop := ∀ t ∈ ts, "" ∉ t.tags

instance (ts : List Task) : Decidable (tagsClean ts) := by
  unfold tagsClean; infer_instance

/-- No record of the snapshot has an empty string among its tags. -/
def recsClean (recs : List TaskRec) : Prop := ∀ r ∈ recs, "" ∉ r.tags.getD []

instance (recs : List TaskRec) : Decidable (recsClean recs) := by
  unfold recsClean; infer_instance

/-- Neither the live tasks nor any snapshot on the two stacks contain an
empty tag string. -/
def stateClean (s : TodoState) : Prop :=
  tagsClean s.tasks ∧ (∀ snap ∈ s.undo_stack, recsClean snap) ∧
    (∀ snap ∈ s.redo_stack, recsClean snap)

instance (s : TodoState) : Decidable (stateClean s) := by
  unfold stateClean; infer_instance

/-- Whether the operation is the JSON import (the one operation that feeds
`from_dict` records whose tag lists are not re-parsed). -/
def Op.isJsonImport : Op → Bool
  | .importJson _ _ _ => true
  | _ => false

def FullOp.isJsonImport : FullOp → Bool
  | .fwd op => op.isJsonImport
  | _ => false

/-- Drop the `id` column of a CSV row. -/
def stripIdColumn (r : CsvRow) : CsvRow := { r with id := none }

/-! ### A dynamically-typed model of `Task.from_dict`

`from_dict` is fed arbitrary JSON data by Import JSON and by the startup
load.  To reason about it on *malformed* records, the values of a parsed
JSON document are modelled dynamically.  Numbers are modelled as integers:
`from_dict` performs no arithmetic on field values, it only stores and
tests them. -/

/-- A value of a parsed JSON document. -/
inductive PyVal where
  | null
  | bool (b : Bool)
  | num (n : Int)
  | str (s : String)
  | list (xs : List PyVal)
  | dict (fields : List (String × PyVal))

/-- Python truthiness for JSON-shaped values (`bool(x)`). -/
def pyTruthy : PyVal → Bool
  | .null => false
  | .bool b => b
  | .num n => decide (n ≠ 0)
  | .str s => decide (s ≠ "")
  | .list xs => !xs.isEmpty
  | .dict fs => !fs.isEmpty

/-- Python `==` between a JSON-shaped value and a string literal: only a
string with the same contents compares equal (`True == "x"` is `False`,
`1 == "1"` is `False`, and so on). -/
def pyEqStr (v : PyVal) (s : String) : Bool :=
  match v with
  | .str s2 => s2 == s
  | _ => false

/-- `priority in PRIORITIES` for a dynamic `priority`. -/
def pyInPriorities (v : PyVal) : Bool :=
  PRIORITIES.any (fun s => pyEqStr v s)

/-- `data.get(key, default)`.  A Python dict holds one value per key; JSON
parsing keeps the last duplicate, hence the reversed lookup. -/
def pyGet (fields : List (String × PyVal)) (key : String) (dflt : PyVal) : PyVal :=
  match fields.reverse.lookup key with
  | some v => v
  | none => dflt

/-- A `Task` object built from dynamic values: Python stores whatever it
was given in the instance attributes. -/
structure TaskPy where
  id : PyVal
  text : PyVal
  completed : PyVal
  created_at : PyVal
  priority : PyVal
  due_date : PyVal
  tags : PyVal
  order_index : PyVal

/-- `Task.__init__` on dynamic arguments: `created_at if created_at is not
None else time.time()`, the priority-enum check via Python `==`, and
`tags or []` via Python truthiness. -/
def TaskPy.make (task_id text completed created_at priority due_date tags order_index : PyVal)
    (now_s : Int) : TaskPy :=
  { id := task_id
    text := text
    completed := completed
    created_at := (match created_at with | .null => .num now_s | v => v)
    priority := if pyInPriorities priority then priority else .str "Medium"
    due_date := due_date
    tags := if pyTruthy tags then tags else .list []
    order_index := order_index }

/-- `Task.from_dict` on an arbitrary JSON dictionary, in an exception
monad: a raising execution path, if one existed, would surface as
`Except.error`.  Each primitive the Python body uses — `dict.get`, `in`
over a string list, `or`, the `is not None` test — is total on these
values, so no step can raise. -/
def fromDictPy (now_ms now_s : Int) (data : List (String × PyVal)) : Except String TaskPy := do
  return TaskPy.make (pyGet data "id" (.num now_ms)) (pyGet data "text" (.str ""))
    (pyGet data "completed" (.bool false)) (pyGet data "created_at" (.num now_s))
    (pyGet data "priority" (.str "Medium")) (pyGet data "due_date" (.str ""))
    (if pyTruthy (pyGet data "tags" (.list [])) then pyGet data "tags" (.list [])
     else .list [])
    (pyGet data "order_index" (.num 0)) now_s

lemma rankIn_countP (l : List (Int × Nat)) (x : Int × Nat) :
    rankIn l x = l.countP (fun y => decide (keyLt y x)) :=
  (List.countP_eq_length_filter _ _).symm

lemma rankIn_sorted : ∀ (sl : List (Int × Nat)), sl.Sorted keyLe → sl.Nodup →
    sl.map (rankIn sl) = List.range sl.length
  | [], _, _ => rfl
  | a :: rest, hs, hn => by
      have hs' : rest.Sorted keyLe := hs.of_cons
      have hrel : ∀ b ∈ rest, keyLe a b := (List.sorted_cons.mp hs).1
      have hnotmem : a ∉ rest := (List.nodup_cons.mp hn).1
      have hn' : rest.Nodup := (List.nodup_cons.mp hn).2
      have hlt : ∀ b ∈ rest, keyLt a b := by
        intro b hb
        have h1 := hrel b hb
        have h2 : a ≠ b := fun h => hnotmem (h ▸ hb)
        rcases a with ⟨a1, a2⟩
        rcases b with ⟨b1, b2⟩
        have h2' : ¬(a1 = b1 ∧ a2 = b2) := by
          intro hc
          exact h2 (by rw [hc.1, hc.2])
        unfold keyLe at h1
        unfold keyLt
        dsimp only at h1 ⊢
        omega
      have hnotlt : ∀ b ∈ a :: rest, ¬ keyLt b a := by
        intro b hb
        rcases List.mem_cons.mp hb with h | h
        · subst h; unfold keyLt; omega
        · have := hlt b h
          unfold keyLt at *
          omega
      have hhead : rankIn (a :: rest) a = 0 := by
        rw [rankIn_countP, List.countP_eq_zero]
        intro b hb
        simpa using hnotlt b hb
      have htail : ∀ b ∈ rest, rankIn (a :: rest) b = rankIn rest b + 1 := by
        intro b hb
        unfold rankIn
        rw [List.filter_cons]
        have : keyLt a b := hlt b hb
        simp [this]
      have hIH := rankIn_sorted rest hs' hn'
      calc (a :: rest).map (rankIn (a :: rest))
          = rankIn (a :: rest) a :: rest.map (rankIn (a :: rest)) := List.map_cons ..
        _ = 0 :: rest.map (fun b => rankIn rest b + 1) := by
              rw [hhead, List.map_congr_left htail]
        _ = 0 :: (rest.map (rankIn rest)).map Nat.succ := by
              rw [List.map_map]; rfl
        _ = 0 :: (List.range rest.length).map Nat.succ := by rw [hIH]
        _ = List.range (a :: rest).length := by
              rw [← List.range_succ_eq_map]; rfl

lemma rankIn_perm_range (l : List (Int × Nat)) (hn : l.Nodup) :
    (l.map (rankIn l)).Perm (List.range l.length) := by
  have hperm : (l.insertionSort keyLe).Perm l := List.perm_insertionSort keyLe l
  have hsor : (l.insertionSort keyLe).Sorted keyLe := List.sorted_insertionSort keyLe l
  have hnodup : (l.insertionSort keyLe).Nodup := hperm.nodup_iff.mpr hn
  have hfix : ∀ x ∈ l, rankIn l x = rankIn (l.insertionSort keyLe) x := fun x _ => by
    rw [rankIn_countP, rankIn_countP, hperm.countP_eq]
  have h3 : (l.insertionSort keyLe).map (rankIn (l.insertionSort keyLe))
      = List.range (l.insertionSort keyLe).length := rankIn_sorted _ hsor hnodup
  rw [List.map_congr_left hfix, ← hperm.length_eq, ← h3]
  exact (hperm.map _).symm

lemma renorm_map_oi (ts : List Task) :
    (renormalize ts).map (fun t => t.order_index)
      = (ts.enum.map keyOf).map (fun x => ((rankIn (ts.enum.map keyOf) x : Nat) : Int)) := by
  unfold renormalize
  rw [List.map_map, List.map_map]
  apply List.map_congr_left
  intro p _
  show ((ts.enum.filter (fun q => stableBefore p q)).length : Int)
      = ((rankIn (ts.enum.map keyOf) (keyOf p) : Nat) : Int)
  congr 1
  rw [rankIn_countP, List.countP_map, ← List.countP_eq_length_filter]
  rfl

lemma keyOf_enum_nodup (ts : List Task) : (ts.enum.map keyOf).Nodup := by
  apply List.Nodup.of_map (fun x => x.2)
  rw [List.map_map]
  have h : ((fun x : Int × Nat => x.2) ∘ keyOf) = Prod.fst := rfl
  rw [h, List.enum_map_fst]
  exact List.nodup_range ts.length

/-- After renormalization the `order_index` values are a permutation of
`0 .. N-1`. -/
lemma renorm_oi_perm (ts : List Task) :
    ((renormalize ts).map (fun t => t.order_index)).Perm (rangeInt ts.length) := by
  unfold rangeInt
  rw [renorm_map_oi]
  have h := (rankIn_perm_range (ts.enum.map keyOf) (keyOf_enum_nodup ts)).map
    (fun n : Nat => (n : Int))
  rw [List.map_map] at h
  have hlen : (ts.enum.map keyOf).length = ts.length := by
    rw [List.length_map, List.enum_length]
  rw [hlen] at h
  exact h

lemma renorm_length (ts : List Task) : (renormalize ts).length = ts.length := by
  unfold renormalize
  rw [List.length_map, List.enum_length]

lemma countP_range_lt (k n : Nat) (h : k ≤ n) :
    (List.range n).countP (fun j => decide (j < k)) = k := by
  induction n with
  | zero =>
      have hz : k = 0 := Nat.le_zero.mp h
      subst hz; rfl
  | succ m ih =>
      rw [List.range_succ, List.countP_append]
      rcases le_or_lt k m with hk | hk
      · rw [ih hk]
        have hmk : ¬ m < k := by omega
        simp [List.countP_cons, hmk]
      · have hk1 : k = m + 1 := by omega
        subst hk1
        have hall : ∀ a ∈ List.range m, (fun j => decide (j < m + 1)) a = true := by
          intro a ha
          simpa using Nat.lt_succ_of_lt (List.mem_range.mp ha)
        rw [List.countP_eq_length.mpr hall, List.length_range]
        simp [List.countP_cons]

/-- A task list whose `order_index` values are already a permutation of
`0 .. N-1` is a fixed point of the resequencing (each task already sits at
its stable-sort rank). -/
lemma renorm_eq_self_of_perm (ts : List Task)
    (h : (ts.map (fun t => t.order_index)).Perm (rangeInt ts.length)) :
    renormalize ts = ts := by
  have hnd : (ts.map (fun t => t.order_index)).Nodup := by
    rw [h.nodup_iff]
    exact (List.nodup_range ts.length).map Nat.cast_injective
  have hget : ∀ p ∈ ts.enum, ∃ hp : p.1 < ts.length, ts[p.1] = p.2 := by
    intro p hp
    exact List.getElem?_eq_some_iff.mp (List.mem_enum_iff_getElem?.mp hp)
  have hinj : ∀ p ∈ ts.enum, ∀ q ∈ ts.enum, q.2.order_index = p.2.order_index → q.1 = p.1 := by
    intro p hp q hq hoi
    obtain ⟨hp1, hp2⟩ := hget p hp
    obtain ⟨hq1, hq2⟩ := hget q hq
    have hb1 : q.1 < (ts.map (fun t => t.order_index)).length := by simpa using hq1
    have hb2 : p.1 < (ts.map (fun t => t.order_index)).length := by simpa using hp1
    have hmap : (ts.map (fun t => t.order_index)).get ⟨q.1, hb1⟩
        = (ts.map (fun t => t.order_index)).get ⟨p.1, hb2⟩ := by
      simp only [List.get_eq_getElem, List.getElem_map]
      rw [hp2, hq2, hoi]
    have hfin : (⟨q.1, hb1⟩ : Fin _) = ⟨p.1, hb2⟩ := (hnd.get_inj_iff).mp hmap
    exact congrArg Fin.val hfin
  have hsnd : ts.enum.map Prod.snd = ts := List.enum_map_snd ts
  conv_rhs => rw [← hsnd]
  unfold renormalize
  apply List.map_congr_left
  intro p hp
  obtain ⟨hp1, hp2⟩ := hget p hp
  have hmem : p.2.order_index ∈ ts.map (fun t => t.order_index) := by
    rw [← hp2]
    exact List.mem_map_of_mem _ (List.getElem_mem hp1)
  have hmem2 : p.2.order_index ∈ rangeInt ts.length := h.mem_iff.mp hmem
  obtain ⟨k, hk, hke⟩ := List.mem_map.mp hmem2
  have hkn : k < ts.length := List.mem_range.mp hk
  have hcount : (ts.enum.filter (fun q => stableBefore p q)).length = k := by
    rw [← List.countP_eq_length_filter]
    have hcongr : ts.enum.countP (fun q => decide (stableBefore p q))
        = ts.enum.countP (fun q => decide (q.2.order_index < p.2.order_index)) := by
      apply List.countP_congr
      intro q hq
      simp only [decide_eq_true_eq]
      constructor
      · intro hs
        rcases hs with hlt | ⟨heq, hpos⟩
        · exact hlt
        · exact absurd (hinj p hp q hq heq) (Nat.ne_of_lt hpos)
      · intro hlt
        exact Or.inl hlt
    have hm1 : (ts.map (fun t => t.order_index)).countP (fun v => decide (v < p.2.order_index))
        = ts.enum.countP (fun q => decide (q.2.order_index < p.2.order_index)) := by
      conv_lhs => rw [← hsnd]
      rw [List.map_map, List.countP_map]
      rfl
    rw [hcongr, ← hm1, h.countP_eq]
    unfold rangeInt
    rw [List.countP_map, ← hke]
    have hpred : ∀ j ∈ List.range ts.length,
        ((fun v : Int => decide (v < (k : Int))) ∘ (fun j : Nat => (j : Int))) j = true
          ↔ (fun j => decide (j < k)) j = true := by
      intro j _
      simp only [Function.comp, decide_eq_true_eq]
      exact Nat.cast_lt
    rw [List.countP_congr hpred]
    exact countP_range_lt k ts.length (Nat.le_of_lt hkn)
  show ({ p.2 with order_index := ((ts.enum.filter (fun q => stableBefore p q)).length : Int) } : Task) = p.2
  rw [hcount, hke]

/-- Renormalizing is idempotent. -/
lemma renorm_idem (ts : List Task) : renormalize (renormalize ts) = renormalize ts := by
  apply renorm_eq_self_of_perm
  rw [renorm_length]
  exact renorm_oi_perm ts

/-- After renormalization, the canonical display order lists the
`order_index` values `0, 1, ..., N-1` in order. -/
lemma displayOrderOk_renorm (ts : List Task) : displayOrderOk (renormalize ts) := by
  unfold displayOrderOk displayList
  rw [renorm_length]
  have hperm : (List.insertionSort canonLe (renormalize ts)).Perm (renormalize ts) :=
    List.perm_insertionSort canonLe (renormalize ts)
  have hp : ((List.insertionSort canonLe (renormalize ts)).map (fun t => t.order_index)).Perm
      (rangeInt ts.length) :=
    (hperm.map _).trans (renorm_oi_perm ts)
  have hsorted : (List.insertionSort canonLe (renormalize ts)).Sorted canonLe :=
    List.sorted_insertionSort canonLe _
  have hs1 : ((List.insertionSort canonLe (renormalize ts)).map
      (fun t => t.order_index)).Sorted (fun a b => a ≤ b) :=
    hsorted.map _ (fun a b hab => by unfold canonLe at hab; omega)
  have hs2 : (rangeInt ts.length).Sorted (fun a b => a ≤ b) :=
    (List.pairwise_lt_range ts.length).map _
      (fun a b hab => by exact_mod_cast Nat.le_of_lt hab)
  exact List.eq_of_perm_of_sorted hp hs1 hs2

lemma saveTasks_tasks (s : TodoState) : (saveTasks s).tasks = renormalize s.tasks := rfl

/-! ### Serialization round trip and field preservation -/

/-- `from_dict` inverts `to_dict` on any task whose stored priority is in
the enum (which the `Task` constructor guarantees). -/
lemma from_to_dict (now_ms now_s : Int) (t : Task) (h : t.validPriority) :
    Task.from_dict now_ms now_s t.to_dict = t := by
  unfold Task.validPriority at h
  unfold Task.from_dict Task.to_dict Task.make
  simp only [Option.getD_some]
  rw [if_pos h]

/-- Whole-collection snapshots restore exactly. -/
lemma serialize_roundtrip (now_ms now_s : Int) (ts : List Task)
    (h : ∀ t ∈ ts, t.validPriority) :
    (serializeAll ts).map (Task.from_dict now_ms now_s) = ts := by
  unfold serializeAll
  rw [List.map_map]
  have hc : ∀ t ∈ ts, (Task.from_dict now_ms now_s ∘ Task.to_dict) t = id t := fun t ht =>
    from_to_dict now_ms now_s t (h t ht)
  rw [List.map_congr_left hc, List.map_id]

/-- Every task built by the constructor carries a legal priority. -/
lemma make_valid (a : Int) (b : String) (c : Bool) (d : Int) (e f : String)
    (g : List String) (i : Int) : (Task.make a b c d e f g i).validPriority := by
  unfold Task.make Task.validPriority
  dsimp only
  split
  · assumption
  · decide

lemma from_dict_valid (now_ms now_s : Int) (d : TaskRec) :
    (Task.from_dict now_ms now_s d).validPriority := by
  unfold Task.from_dict
  apply make_valid

/-- Properties untouched by an `order_index` rewrite survive
renormalization. -/
lemma renorm_pres (P : Task → Prop)
    (hP : ∀ u oi, P u → P { u with order_index := oi }) (ts : List Task)
    (h : ∀ t ∈ ts, P t) : ∀ t ∈ renormalize ts, P t := by
  intro t ht
  unfold renormalize at ht
  obtain ⟨p, hp, rfl⟩ := List.mem_map.mp ht
  have hmem : p.2 ∈ ts := by
    rw [← List.enum_map_snd ts]
    exact List.mem_map_of_mem _ hp
  exact hP p.2 _ (h p.2 hmem)

lemma renorm_valid (ts : List Task) (h : tasksValid ts) : tasksValid (renormalize ts) :=
  renorm_pres Task.validPriority (fun _ _ hu => hu) ts h

lemma updateFirst_pres (P : Task → Prop) (tid : Int) (f : Task → Task)
    (hf : ∀ t, P t → P (f t)) :
    ∀ ts : List Task, (∀ t ∈ ts, P t) → ∀ t ∈ updateFirst tid f ts, P t
  | [], _, t, ht => absurd ht (List.not_mem_nil t)
  | u :: ts, h, t, ht => by
      unfold updateFirst at ht
      split at ht
      · rcases List.mem_cons.mp ht with rfl | hmem
        · exact hf u (h u (List.mem_cons_self u ts))
        · exact h t (List.mem_cons_of_mem u hmem)
      · rcases List.mem_cons.mp ht with rfl | hmem
        · exact h t (List.mem_cons_self t ts)
        · exact updateFirst_pres P tid f hf ts
            (fun v hv => h v (List.mem_cons_of_mem u hv)) t hmem

lemma importCsvLoop_valid (nmf : Nat → Int) (ns : Int) :
    ∀ (rows : List CsvRow) (acc : List Task), tasksValid acc →
      tasksValid (exceptOut (importCsvLoop nmf ns rows acc))
  | [], _, h => h
  | row :: rest, acc, h => by
      unfold importCsvLoop
      cases hoi : (match row.order_index with
                   | some str => pyIntParse str
                   | none => some (acc.length : Int)) with
      | none => exact h
      | some oi =>
          apply importCsvLoop_valid nmf ns rest
          intro t ht
          rcases List.mem_append.mp ht with hmem | hmem
          · exact h t hmem
          · rw [List.mem_singleton.mp hmem]
            apply make_valid

/-- On every code path through `_save_snapshot` the mutating operations
push the serialized pre-state, clear the redo stack, and (when they finish
without an exception) leave a renormalized task list built from valid
tasks. -/
lemma op_shape (op : Op) (s : TodoState) (hrec : op.recordsSnapshot s = true) :
    (Op.apply op s).undo_stack = serializeAll s.tasks :: s.undo_stack ∧
    (Op.apply op s).redo_stack = [] ∧
    (Op.completesNormally op s = true →
      ∃ X, (Op.apply op s).tasks = renormalize X ∧ (tasksValid s.tasks → tasksValid X)) := by
  cases op with
  | add nm ns a b c d =>
      simp only [Op.recordsSnapshot, decide_eq_true_eq] at hrec
      refine ⟨?_, ?_, fun _ => ?_⟩
      · simp only [Op.apply, add_task, if_neg hrec, saveTasks, saveSnapshot]
      · simp only [Op.apply, add_task, if_neg hrec, saveTasks, saveSnapshot]
      · simp only [Op.apply, add_task, if_neg hrec, saveTasks, saveSnapshot]
        refine ⟨_, rfl, fun hval => ?_⟩
        intro t ht
        rcases List.mem_append.mp ht with hmem | hmem
        · exact hval t hmem
        · rw [List.mem_singleton.mp hmem]
          apply make_valid
  | edit tid nt nd np ng =>
      simp only [Op.recordsSnapshot, Bool.and_eq_true] at hrec
      obtain ⟨h1, h2⟩ := hrec
      obtain ⟨w, hw⟩ := Option.isSome_iff_exists.mp h1
      cases hnt : nt with
      | none => rw [hnt] at h2; exact absurd h2 (by simp)
      | some nt0 =>
          rw [hnt] at h2
          simp only [decide_eq_true_eq] at h2
          refine ⟨?_, ?_, fun _ => ?_⟩
          · simp only [Op.apply, edit_task, hw, if_neg h2, saveTasks, saveSnapshot]
          · simp only [Op.apply, edit_task, hw, if_neg h2, saveTasks, saveSnapshot]
          · simp only [Op.apply, edit_task, hw, if_neg h2, saveTasks, saveSnapshot]
            refine ⟨_, rfl, fun hval => ?_⟩
            apply updateFirst_pres _ tid _ ?_ s.tasks hval
            intro t ht
            unfold applyEdit Task.validPriority at *
            dsimp only
            cases np with
            | none => exact ht
            | some p =>
                dsimp only
                split
                · assumption
                · exact ht
  | toggle ids =>
      simp only [Op.recordsSnapshot, Bool.not_eq_true'] at hrec
      refine ⟨?_, ?_, fun _ => ?_⟩
      · simp only [Op.apply, toggle_selected, hrec, Bool.false_eq_true, if_false,
          saveTasks, saveSnapshot]
      · simp only [Op.apply, toggle_selected, hrec, Bool.false_eq_true, if_false,
          saveTasks, saveSnapshot]
      · simp only [Op.apply, toggle_selected, hrec, Bool.false_eq_true, if_false,
          saveTasks, saveSnapshot]
        refine ⟨_, rfl, fun hval => ?_⟩
        intro t ht
        obtain ⟨u, hu, rfl⟩ := List.mem_map.mp ht
        unfold Task.validPriority
        split
        · exact hval u hu
        · exact hval u hu
  | delete ids =>
      simp only [Op.recordsSnapshot, Bool.not_eq_true'] at hrec
      refine ⟨?_, ?_, fun _ => ?_⟩
      · simp only [Op.apply, delete_selected, hrec, Bool.false_eq_true, if_false,
          saveTasks, saveSnapshot]
      · simp only [Op.apply, delete_selected, hrec, Bool.false_eq_true, if_false,
          saveTasks, saveSnapshot]
      · simp only [Op.apply, delete_selected, hrec, Bool.false_eq_true, if_false,
          saveTasks, saveSnapshot]
        refine ⟨_, rfl, fun hval => ?_⟩
        apply renorm_valid
        intro t ht
        exact hval t (List.mem_of_mem_filter ht)
  | reorder ids =>
      refine ⟨rfl, rfl, fun _ => ?_⟩
      simp only [Op.apply, Todo.reorder, saveTasks, saveSnapshot]
      refine ⟨_, rfl, fun hval => ?_⟩
      intro t ht
      obtain ⟨u, hu, rfl⟩ := List.mem_map.mp ht
      unfold Task.validPriority
      cases hl : ((orderMap ids).lookup u.id) with
      | none => simp only [hl]; exact hval u hu
      | some idx => simp only [hl]; exact hval u hu
  | importJson nm ns d =>
      cases d with
      | nonArray => exact absurd hrec (by simp [Op.recordsSnapshot])
      | parseError => exact absurd hrec (by simp [Op.recordsSnapshot])
      | arr items =>
          refine ⟨rfl, rfl, fun _ => ?_⟩
          simp only [Op.apply, import_json, saveTasks, saveSnapshot]
          refine ⟨_, rfl, fun _ => ?_⟩
          intro t ht
          obtain ⟨it, _, hit⟩ := List.mem_filterMap.mp ht
          cases it with
          | other => exact absurd hit (by simp)
          | dict rec0 =>
              simp only [Option.some.injEq] at hit
              rw [← hit]
              apply from_dict_valid
  | importCsv nmf ns rows =>
      cases hloop : importCsvLoop nmf ns rows [] with
      | ok ts' =>
          refine ⟨?_, ?_, fun _ => ?_⟩
          · simp only [Op.apply, import_csv, hloop, saveTasks, saveSnapshot]
          · simp only [Op.apply, import_csv, hloop, saveTasks, saveSnapshot]
          · simp only [Op.apply, import_csv, hloop, saveTasks, saveSnapshot]
            refine ⟨ts', rfl, fun _ => ?_⟩
            have h := importCsvLoop_valid nmf ns rows [] (by intro t ht; cases ht)
            rw [hloop] at h
            exact h
      | error sofar =>
          refine ⟨?_, ?_, fun hnorm => ?_⟩
          · simp only [Op.apply, import_csv, hloop, saveSnapshot]
          · simp only [Op.apply, import_csv, hloop, saveSnapshot]
          · simp only [Op.completesNormally, hloop, Except.isOk, Except.toBool,
              Bool.false_eq_true] at hnorm

/-- `undo` is a no-op on an empty undo stack. -/
lemma undo_noop (now_ms now_s : Int) (s : TodoState) (h : s.undo_stack = []) :
    undo now_ms now_s s = s := by
  unfold undo
  rw [h]

/-- `redo` is a no-op on an empty redo stack. -/
lemma redo_noop (now_ms now_s : Int) (s : TodoState) (h : s.redo_stack = []) :
    redo now_ms now_s s = s := by
  unfold redo
  rw [h]

/-- C1 (amended): after every store-level mutation that actually touches
the state (forward operation through `_save_snapshot`, undo or redo with a
nonempty stack) and that completes without an exception, the `order_index`
values, read in canonical display order, are exactly `0 .. N-1`.  (As
stated, the claim fails for a CSV import aborted mid-parse — see the
counterexample.) -/
theorem C1_order_index_contiguous (fop : FullOp) (s : TodoState)
    (hmut : fop.mutates s = true) (hnorm : fop.normal s = true) :
    displayOrderOk (fop.apply s).tasks := by
  cases fop with
  | fwd op =>
      simp only [FullOp.mutates] at hmut
      simp only [FullOp.normal] at hnorm
      simp only [FullOp.apply]
      obtain ⟨_, _, h3⟩ := op_shape op s hmut
      obtain ⟨X, hX, _⟩ := h3 hnorm
      rw [hX]
      exact displayOrderOk_renorm X
  | undoOp nm ns =>
      simp only [FullOp.mutates, Bool.not_eq_true'] at hmut
      cases hst : s.undo_stack with
      | nil => rw [hst] at hmut; exact absurd hmut (by simp)
      | cons prev rest =>
          simp only [FullOp.apply, undo, hst, saveTasks]
          exact displayOrderOk_renorm _
  | redoOp nm ns =>
      simp only [FullOp.mutates, Bool.not_eq_true'] at hmut
      cases hst : s.redo_stack with
      | nil => rw [hst] at hmut; exact absurd hmut (by simp)
      | cons next_state rest =>
          simp only [FullOp.apply, redo, hst, saveTasks]
          exact displayOrderOk_renorm _

theorem C1_order_index_contiguous_witness :
    FullOp.mutates (.fwd (.toggle [1]))
      ⟨[⟨1, "a", false, 0, "Medium", "", [], 5⟩], [], []⟩ = true ∧
    displayOrderOk
      ((FullOp.apply (.fwd (.toggle [1]))
        ⟨[⟨1, "a", false, 0, "Medium", "", [], 5⟩], [], []⟩).tasks) :=
  ⟨by decide,
   C1_order_index_contiguous (.fwd (.toggle [1]))
     ⟨[⟨1, "a", false, 0, "Medium", "", [], 5⟩], [], []⟩ (by decide) (by decide)⟩

/-- C1 counterexample: a CSV import whose second row has an unparsable
`order_index` mutates the store (the collection is replaced by the rows
parsed so far) yet leaves `order_index` values that are not `0 .. N-1`:
the surviving row keeps its file value `7`. -/
theorem C1_counterexample :
    ¬ displayOrderOk
      ((FullOp.apply
        (.fwd (.importCsv (fun _ => 1000) 0
          [⟨some "9", some "y", some "no", none, none, none, none, some "7"⟩,
           ⟨some "9", some "x", some "yes", none, none, none, none, some "oops"⟩]))
        ⟨[], [], []⟩).tasks) ∧
    (FullOp.apply
        (.fwd (.importCsv (fun _ => 1000) 0
          [⟨some "9", some "y", some "no", none, none, none, none, some "7"⟩,
           ⟨some "9", some "x", some "yes", none, none, none, none, some "oops"⟩]))
        ⟨[], [], []⟩).tasks ≠ [] := by
  constructor
  · decide
  · decide

/-- C5: every forward mutation that goes through `_save_snapshot` leaves
the redo stack empty — whatever the starting state, in particular right
after any number of undos — so an immediately following `redo()` is a
no-op. -/
theorem C5_redo_cleared (op : Op) (s : TodoState)
    (hrec : op.recordsSnapshot s = true) :
    (op.apply s).redo_stack = [] ∧
    ∀ now_ms now_s : Int, redo now_ms now_s (op.apply s) = op.apply s := by
  obtain ⟨_, h2, _⟩ := op_shape op s hrec
  exact ⟨h2, fun nm ns => redo_noop nm ns _ h2⟩

theorem C5_redo_cleared_witness :
    (Op.apply (.toggle [1])
      ⟨[⟨1, "a", false, 0, "Medium", "", [], 0⟩], [],
        [[⟨some 1, some "b", some false, some 0, some "Low", some "", some [], some 0⟩]]⟩
      ).redo_stack = [] ∧
    redo 7 7 (Op.apply (.toggle [1])
      ⟨[⟨1, "a", false, 0, "Medium", "", [], 0⟩], [],
        [[⟨some 1, some "b", some false, some 0, some "Low", some "", some [], some 0⟩]]⟩)
      = Op.apply (.toggle [1])
      ⟨[⟨1, "a", false, 0, "Medium", "", [], 0⟩], [],
        [[⟨some 1, some "b", some false, some 0, some "Low", some "", some [], some 0⟩]]⟩ :=
  ⟨(C5_redo_cleared (.toggle [1]) _ (by decide)).1,
   (C5_redo_cleared (.toggle [1]) _ (by decide)).2 7 7⟩

/-- C2 (amended): from a state whose tasks are constructor-valid and whose
`order_index` assignment is already normalized (as holds for every state a
completed mutation leaves behind), an undo right after a snapshot-recording
mutation that completed normally restores exactly the pre-mutation
collection, and a redo right after that undo restores exactly the
post-mutation collection; undo and redo are no-ops on empty stacks.  (As
stated over arbitrary states, the claim fails — see the counterexample:
`undo` itself runs `_save_tasks`, which resequences a non-normalized
restored snapshot.) -/
theorem C2_undo_redo_exact (op : Op) (s : TodoState)
    (hval : tasksValid s.tasks)
    (hfix : renormalize s.tasks = s.tasks)
    (hrec : op.recordsSnapshot s = true)
    (hnorm : op.completesNormally s = true)
    (nm ns nm2 ns2 : Int) :
    (undo nm ns (op.apply s)).tasks = s.tasks ∧
    (redo nm2 ns2 (undo nm ns (op.apply s))).tasks = (op.apply s).tasks ∧
    (∀ s2 : TodoState, s2.undo_stack = [] → undo nm ns s2 = s2) ∧
    (∀ s2 : TodoState, s2.redo_stack = [] → redo nm ns s2 = s2) := by
  obtain ⟨h1, h2, h3⟩ := op_shape op s hrec
  obtain ⟨X, hX, hXval⟩ := h3 hnorm
  have hmval : tasksValid (op.apply s).tasks := by
    rw [hX]
    exact renorm_valid X (hXval hval)
  have hundo : undo nm ns (op.apply s) = saveTasks
      { tasks := (serializeAll s.tasks).map (Task.from_dict nm ns)
        undo_stack := s.undo_stack
        redo_stack := serializeAll (op.apply s).tasks :: (op.apply s).redo_stack } := by
    unfold undo
    rw [h1]
  have hu_tasks : (undo nm ns (op.apply s)).tasks = s.tasks := by
    rw [hundo, saveTasks_tasks]
    dsimp only
    rw [serialize_roundtrip nm ns s.tasks hval, hfix]
  refine ⟨hu_tasks, ?_, fun s2 h => undo_noop nm ns s2 h, fun s2 h => redo_noop nm ns s2 h⟩
  have hredo_stack : (undo nm ns (op.apply s)).redo_stack
      = [serializeAll (op.apply s).tasks] := by
    rw [hundo, h2]
    rfl
  unfold redo
  rw [hredo_stack]
  dsimp only
  rw [saveTasks_tasks]
  dsimp only
  rw [serialize_roundtrip nm2 ns2 (op.apply s).tasks hmval, hX, renorm_idem, ← hX]

theorem C2_undo_redo_exact_witness :
    (undo 3 3 (Op.apply (.toggle [1])
        ⟨[⟨1, "a", false, 0, "Medium", "", [], 0⟩], [], []⟩)).tasks
      = [⟨1, "a", false, 0, "Medium", "", [], 0⟩] ∧
    (redo 4 4 (undo 3 3 (Op.apply (.toggle [1])
        ⟨[⟨1, "a", false, 0, "Medium", "", [], 0⟩], [], []⟩))).tasks
      = (Op.apply (.toggle [1])
        ⟨[⟨1, "a", false, 0, "Medium", "", [], 0⟩], [], []⟩).tasks ∧
    undo 3 3 ⟨[], [], []⟩ = ⟨[], [], []⟩ ∧
    redo 3 3 ⟨[], [], []⟩ = ⟨[], [], []⟩ :=
  ⟨(C2_undo_redo_exact (.toggle [1]) ⟨[⟨1, "a", false, 0, "Medium", "", [], 0⟩], [], []⟩
      (by decide) (by decide) (by decide) (by decide) 3 3 4 4).1,
   (C2_undo_redo_exact (.toggle [1]) ⟨[⟨1, "a", false, 0, "Medium", "", [], 0⟩], [], []⟩
      (by decide) (by decide) (by decide) (by decide) 3 3 4 4).2.1,
   (C2_undo_redo_exact (.toggle [1]) ⟨[⟨1, "a", false, 0, "Medium", "", [], 0⟩], [], []⟩
      (by decide) (by decide) (by decide) (by decide) 3 3 4 4).2.2.1 ⟨[], [], []⟩ rfl,
   (C2_undo_redo_exact (.toggle [1]) ⟨[⟨1, "a", false, 0, "Medium", "", [], 0⟩], [], []⟩
      (by decide) (by decide) (by decide) (by decide) 3 3 4 4).2.2.2 ⟨[], [], []⟩ rfl⟩

/-- C2 counterexample: from a store state whose single task has
`order_index = 5` (such states arise from `_load_tasks`, which sorts but
does not resequence), toggling it and undoing does not restore the
pre-mutation collection: the undo path's `_save_tasks` resequences the
restored snapshot's `order_index` from `5` to `0`. -/
theorem C2_counterexample :
    (undo 0 0 (Op.apply (.toggle [1])
      ⟨[⟨1, "a", false, 0, "Medium", "", [], 5⟩], [], []⟩)).tasks
    ≠ [⟨1, "a", false, 0, "Medium", "", [], 5⟩] := by
  decide

/-- C3 (amended): a JSON import whose top-level value is not an array, or
whose file does not parse, aborts before any state change; a CSV import
whose row loop raises leaves the snapshot pushed and the in-memory
collection equal to the partially rebuilt list of rows parsed before the
failure — not the pre-import collection.  (As stated, the claim fails for
CSV — see the counterexample.) -/
theorem C3_import_abort (now_ms now_s : Int) (s : TodoState) (nmf : Nat → Int)
    (rows : List CsvRow) (sofar : List Task)
    (herr : importCsvLoop nmf now_s rows [] = .error sofar) :
    import_json now_ms now_s .nonArray s = s ∧
    import_json now_ms now_s .parseError s = s ∧
    import_csv nmf now_s rows s =
      { tasks := sofar
        undo_stack := serializeAll s.tasks :: s.undo_stack
        redo_stack := [] } := by
  refine ⟨rfl, rfl, ?_⟩
  unfold import_csv
  rw [herr]
  rfl

/-- C3 counterexample: a CSV import whose second row has an unparsable
`order_index` replaces the one-task pre-import collection by the single
row parsed before the failure, so the in-memory collection is not the
pre-import collection. -/
theorem C3_counterexample :
    (import_csv (fun _ => 1000) 0
      [⟨some "9", some "y", some "no", none, none, none, none, some "7"⟩,
       ⟨some "9", some "x", some "yes", none, none, none, none, some "oops"⟩]
      ⟨[⟨1, "t", false, 0, "Medium", "", [], 0⟩], [], []⟩).tasks
    ≠ [⟨1, "t", false, 0, "Medium", "", [], 0⟩] := by
  decide

theorem C3_import_abort_witness :
    import_json 5 5 .nonArray ⟨[⟨1, "t", false, 0, "Medium", "", [], 0⟩], [], []⟩
      = ⟨[⟨1, "t", false, 0, "Medium", "", [], 0⟩], [], []⟩ ∧
    import_json 5 5 .parseError ⟨[⟨1, "t", false, 0, "Medium", "", [], 0⟩], [], []⟩
      = ⟨[⟨1, "t", false, 0, "Medium", "", [], 0⟩], [], []⟩ ∧
    import_csv (fun _ => 1000) 0
      [⟨some "9", some "x", some "yes", none, none, none, none, some "oops"⟩]
      ⟨[⟨1, "t", false, 0, "Medium", "", [], 0⟩], [], []⟩
      = { tasks := []
          undo_stack := serializeAll [⟨1, "t", false, 0, "Medium", "", [], 0⟩] :: []
          redo_stack := [] } :=
  C3_import_abort 5 5 ⟨[⟨1, "t", false, 0, "Medium", "", [], 0⟩], [], []⟩
    (fun _ => 1000)
    [⟨some "9", some "x", some "yes", none, none, none, none, some "oops"⟩]
    [] rfl

/-- C4: serialize/deserialize is the identity on every valid task — text
nonempty after stripping, priority in the enum, tags stripped and
nonempty — including empty `tags` and empty `due_date`.  (Only the
priority hypothesis is actually needed: `to_dict` emits every key, and
the constructor re-admits any in-enum priority and any list of tags.) -/
theorem C4_roundtrip (now_ms now_s : Int) (t : Task)
    (_htext : pyStrip t.text ≠ "")
    (hpri : t.priority ∈ PRIORITIES)
    (_htags : ∀ g ∈ t.tags, pyStrip g = g ∧ g ≠ "") :
    Task.from_dict now_ms now_s t.to_dict = t :=
  from_to_dict now_ms now_s t hpri

theorem C4_roundtrip_witness :
    Task.from_dict 99 99 (Task.to_dict ⟨1, "Buy milk", false, 0, "Medium", "", [], 0⟩)
      = ⟨1, "Buy milk", false, 0, "Medium", "", [], 0⟩ :=
  C4_roundtrip 99 99 ⟨1, "Buy milk", false, 0, "Medium", "", [], 0⟩
    (by decide) (by decide) (by decide)

/-- C7 (amended): adding with text that strips to empty creates no task,
takes no snapshot, triggers no persistence and leaves the whole state
unchanged — but it returns silently: `add_task` shows no message at all on
this path, so no `ValidationError` is surfaced to the user.  (As stated,
the claim fails — see the counterexample.) -/
theorem C7_blank_add_noop (now_ms now_s : Int)
    (entry_text prio_box due_entry tags_entry : String) (s : TodoState)
    (h : pyStrip entry_text = "") :
    add_task now_ms now_s entry_text prio_box due_entry tags_entry s = (s, none) := by
  unfold add_task
  rw [if_pos h]

theorem C7_blank_add_noop_witness :
    add_task 5 5 "   " "High" "2024-01-01" "a,b"
      ⟨[⟨1, "t", false, 0, "Medium", "", [], 0⟩], [], []⟩
      = (⟨[⟨1, "t", false, 0, "Medium", "", [], 0⟩], [], []⟩, none) :=
  C7_blank_add_noop 5 5 "   " "High" "2024-01-01" "a,b"
    ⟨[⟨1, "t", false, 0, "Medium", "", [], 0⟩], [], []⟩ (by decide)

/-- C7 counterexample: adding `"   "` leaves the state unchanged but the
message component is `none` — the source's blank-text path is a bare
`return` with no message box, while the claim requires a user-visible
`ValidationError` message (as `edit_selected_task` in fact shows for empty
text). -/
theorem C7_counterexample :
    (add_task 5 5 "   " "" "" "" ⟨[], [], []⟩).2 = none := by
  decide

/-- C10: `Task.from_dict` is total over dictionaries: on every JSON
dictionary — keys missing, values of unexpected type — it returns a task
object without raising; the exception path of the embedding is never
taken. -/
theorem C10_from_dict_total (now_ms now_s : Int) (data : List (String × PyVal)) :
    ∃ t, fromDictPy now_ms now_s data = Except.ok t :=
  ⟨_, rfl⟩

/-- C8 counterexample: importing a JSON record whose `"tags"` entry is
`[""]` from the (reachable, initial) empty state yields a task whose tags
contain the empty string — `from_dict` passes tag lists through without
re-parsing them. -/
theorem C8_counterexample :
    (import_json 9 9
      (.arr [.dict ⟨some 3, some "t", none, none, none, none, some [""], none⟩])
      ⟨[], [], []⟩).tasks.map (fun t => t.tags) = [[""]] := by
  decide

lemma splitTags_clean (x : String) : "" ∉ splitTags x := by
  unfold splitTags
  intro hmem
  have h := List.of_mem_filter hmem
  simp at h

lemma serializeAll_clean (ts : List Task) (h : tagsClean ts) :
    recsClean (serializeAll ts) := by
  intro r hr
  obtain ⟨t, ht, rfl⟩ := List.mem_map.mp hr
  simpa [Task.to_dict] using h t ht

lemma from_dict_clean (now_ms now_s : Int) (r : TaskRec) (h : "" ∉ r.tags.getD []) :
    "" ∉ (Task.from_dict now_ms now_s r).tags := by
  simpa [Task.from_dict, Task.make] using h

lemma renorm_clean (ts : List Task) (h : tagsClean ts) : tagsClean (renormalize ts) :=
  renorm_pres (fun t => "" ∉ t.tags) (fun _ _ hu => hu) ts h

lemma stateClean_push (s : TodoState) (ts2 : List Task) (hc : stateClean s)
    (hts2 : tagsClean ts2) :
    stateClean
      { tasks := ts2
        undo_stack := serializeAll s.tasks :: s.undo_stack
        redo_stack := [] } := by
  refine ⟨hts2, ?_, ?_⟩
  · intro snap hsnap
    rcases List.mem_cons.mp hsnap with rfl | hmem
    · exact serializeAll_clean s.tasks hc.1
    · exact hc.2.1 snap hmem
  · intro snap hsnap
    cases hsnap

lemma importCsvLoop_clean (nmf : Nat → Int) (ns : Int) :
    ∀ (rows : List CsvRow) (acc : List Task), tagsClean acc →
      tagsClean (exceptOut (importCsvLoop nmf ns rows acc))
  | [], _, h => h
  | row :: rest, acc, h => by
      unfold importCsvLoop
      cases hoi : (match row.order_index with
                   | some str => pyIntParse str
                   | none => some (acc.length : Int)) with
      | none => exact h
      | some oi =>
          apply importCsvLoop_clean nmf ns rest
          intro t ht
          rcases List.mem_append.mp ht with hmem | hmem
          · exact h t hmem
          · rw [List.mem_singleton.mp hmem]
            show "" ∉ (Task.make _ _ _ _ _ _ (splitTags (row.tags.getD "")) _).tags
            exact splitTags_clean _

/-- C8 (amended): no empty tag string is ever *introduced* by add, edit,
toggle, delete, reorder, CSV import (whose tag fields are split, stripped
and filtered), undo or redo: every such operation maps a state whose live
tasks and stacked snapshots are free of empty tags to another such state.
JSON import (and the startup load, which shares `from_dict`) is the
exception: it passes serialized tag lists through unfiltered — see the
counterexample. -/
theorem C8_no_empty_tags (fop : FullOp) (s : TodoState) (hclean : stateClean s)
    (hnj : fop.isJsonImport = false) : stateClean (fop.apply s) := by
  cases fop with
  | undoOp nm ns =>
      cases hst : s.undo_stack with
      | nil => simpa [FullOp.apply, undo, hst] using hclean
      | cons prev rest =>
          simp only [FullOp.apply, undo, hst, saveTasks]
          refine ⟨renorm_clean _ ?_, ?_, ?_⟩
          · intro t ht
            obtain ⟨r, hr, rfl⟩ := List.mem_map.mp ht
            refine from_dict_clean nm ns r (hclean.2.1 prev ?_ r hr)
            rw [hst]
            exact List.mem_cons_self prev rest
          · intro snap hsnap
            refine hclean.2.1 snap ?_
            rw [hst]
            exact List.mem_cons_of_mem prev hsnap
          · intro snap hsnap
            rcases List.mem_cons.mp hsnap with rfl | hmem
            · exact serializeAll_clean s.tasks hclean.1
            · exact hclean.2.2 snap hmem
  | redoOp nm ns =>
      cases hst : s.redo_stack with
      | nil => simpa [FullOp.apply, redo, hst] using hclean
      | cons next_state rest =>
          simp only [FullOp.apply, redo, hst, saveTasks]
          refine ⟨renorm_clean _ ?_, ?_, ?_⟩
          · intro t ht
            obtain ⟨r, hr, rfl⟩ := List.mem_map.mp ht
            refine from_dict_clean nm ns r (hclean.2.2 next_state ?_ r hr)
            rw [hst]
            exact List.mem_cons_self next_state rest
          · intro snap hsnap
            rcases List.mem_cons.mp hsnap with rfl | hmem
            · exact serializeAll_clean s.tasks hclean.1
            · exact hclean.2.1 snap hmem
          · intro snap hsnap
            refine hclean.2.2 snap ?_
            rw [hst]
            exact List.mem_cons_of_mem next_state hsnap
  | fwd op =>
      cases op with
      | importJson nm ns d =>
          exact absurd hnj (by simp [FullOp.isJsonImport, Op.isJsonImport])
      | add nm ns a b c d =>
          by_cases hb : pyStrip a = ""
          · simpa [FullOp.apply, Op.apply, add_task, if_pos hb] using hclean
          · simp only [FullOp.apply, Op.apply, add_task, if_neg hb, saveTasks, saveSnapshot]
            apply stateClean_push s _ hclean
            apply renorm_clean
            intro t ht
            rcases List.mem_append.mp ht with hmem | hmem
            · exact hclean.1 t hmem
            · rw [List.mem_singleton.mp hmem]
              show "" ∉ (Task.make _ _ _ _ _ _
                (if pyStrip d = "" then [] else splitTags (pyStrip d)) _).tags
              show "" ∉ (if pyStrip d = "" then [] else splitTags (pyStrip d))
              split
              · exact List.not_mem_nil ""
              · exact splitTags_clean _
      | edit tid nt nd np ng =>
          cases hw : s.tasks.find? (fun t => t.id = tid) with
          | none => simpa [FullOp.apply, Op.apply, edit_task, hw] using hclean
          | some w =>
              cases nt with
              | none => simpa [FullOp.apply, Op.apply, edit_task, hw] using hclean
              | some nt0 =>
                  by_cases hb : pyStrip nt0 = ""
                  · simpa [FullOp.apply, Op.apply, edit_task, hw, if_pos hb] using hclean
                  · simp only [FullOp.apply, Op.apply, edit_task, hw, if_neg hb,
                      saveTasks, saveSnapshot]
                    apply stateClean_push s _ hclean
                    apply renorm_clean
                    apply updateFirst_pres _ tid _ ?_ s.tasks hclean.1
                    intro t ht
                    show "" ∉ (applyEdit (pyStrip nt0) nd np ng t).tags
                    unfold applyEdit
                    dsimp only
                    cases ng with
                    | none => exact ht
                    | some str => exact splitTags_clean str
      | toggle ids =>
          cases he : ids.isEmpty with
          | true => simpa [FullOp.apply, Op.apply, toggle_selected, he] using hclean
          | false =>
              simp only [FullOp.apply, Op.apply, toggle_selected, he,
                Bool.false_eq_true, if_false, saveTasks, saveSnapshot]
              apply stateClean_push s _ hclean
              apply renorm_clean
              intro t ht
              obtain ⟨u, hu, rfl⟩ := List.mem_map.mp ht
              split
              · exact hclean.1 u hu
              · exact hclean.1 u hu
      | delete ids =>
          cases he : ids.isEmpty with
          | true => simpa [FullOp.apply, Op.apply, delete_selected, he] using hclean
          | false =>
              simp only [FullOp.apply, Op.apply, delete_selected, he,
                Bool.false_eq_true, if_false, saveTasks, saveSnapshot]
              apply stateClean_push s _ hclean
              apply renorm_clean
              apply renorm_clean
              intro t ht
              exact hclean.1 t (List.mem_of_mem_filter ht)
      | reorder ids =>
          simp only [FullOp.apply, Op.apply, Todo.reorder, saveTasks, saveSnapshot]
          apply stateClean_push s _ hclean
          apply renorm_clean
          intro t ht
          obtain ⟨u, hu, rfl⟩ := List.mem_map.mp ht
          cases hl : ((orderMap ids).lookup u.id) with
          | none => simp only [hl]; exact hclean.1 u hu
          | some idx => simp only [hl]; exact hclean.1 u hu
      | importCsv nmf ns rows =>
          cases hloop : importCsvLoop nmf ns rows [] with
          | ok ts' =>
              simp only [FullOp.apply, Op.apply, import_csv, hloop, saveTasks, saveSnapshot]
              apply stateClean_push s _ hclean
              apply renorm_clean
              have h := importCsvLoop_clean nmf ns rows [] (by intro t ht; cases ht)
              rw [hloop] at h
              exact h
          | error sofar =>
              simp only [FullOp.apply, Op.apply, import_csv, hloop, saveSnapshot]
              apply stateClean_push s _ hclean
              have h := importCsvLoop_clean nmf ns rows [] (by intro t ht; cases ht)
              rw [hloop] at h
              exact h

lemma importCsvLoop_stripId (nmf : Nat → Int) (ns : Int) :
    ∀ (rows : List CsvRow) (acc : List Task),
      importCsvLoop nmf ns (rows.map stripIdColumn) acc = importCsvLoop nmf ns rows acc
  | [], _ => rfl
  | row :: rest, acc => by
      obtain ⟨i, te, co, ca, pr, du, tg, oi⟩ := row
      show importCsvLoop nmf ns
        (stripIdColumn ⟨i, te, co, ca, pr, du, tg, oi⟩ :: rest.map stripIdColumn) acc = _
      unfold stripIdColumn
      unfold importCsvLoop
      cases hoi : (match oi with
                   | some str => pyIntParse str
                   | none => some (acc.length : Int)) with
      | none => rfl
      | some o => exact importCsvLoop_stripId nmf ns rest _

lemma importCsvLoop_ids (nmf : Nat → Int) (ns : Int) :
    ∀ (rows : List CsvRow) (acc : List Task),
      ∃ k, (exceptOut (importCsvLoop nmf ns rows acc)).map (fun t => t.id)
        = acc.map (fun t => t.id)
          ++ (List.range' acc.length k).map (fun j => nmf j + (j : Int))
  | [], acc => ⟨0, by simp [importCsvLoop, exceptOut]⟩
  | row :: rest, acc => by
      unfold importCsvLoop
      cases hoi : (match row.order_index with
                   | some str => pyIntParse str
                   | none => some (acc.length : Int)) with
      | none => exact ⟨0, by simp [exceptOut]⟩
      | some oi =>
          obtain ⟨k, hk⟩ := importCsvLoop_ids nmf ns rest
            (acc ++ [Task.make (nmf acc.length + acc.length) (row.text.getD "")
              (csvTruthy (row.completed.getD "")) ns (row.priority.getD "Medium")
              (row.due_date.getD "") (splitTags (row.tags.getD "")) oi])
          refine ⟨k + 1, ?_⟩
          rw [hk, List.map_append, List.length_append]
          show (acc.map (fun t => t.id) ++ [nmf acc.length + (acc.length : Int)])
              ++ (List.range' (acc.length + 1) k).map (fun j => nmf j + (j : Int)) = _
          rw [List.range'_succ, List.map_cons, List.append_assoc]
          rfl

lemma renorm_map_id (ts : List Task) :
    (renormalize ts).map (fun t => t.id) = ts.map (fun t => t.id) := by
  unfold renormalize
  rw [List.map_map]
  conv_rhs => rw [← List.enum_map_snd ts]
  rw [List.map_map]
  rfl

/-- C9: CSV import never reads the `id` column (deleting it changes
nothing), and — the import clock being monotone across the row loop — the
freshly synthesized ids `int(time.time()*1000) + len(self.tasks)` of the
resulting collection are pairwise distinct. -/
theorem C9_csv_fresh_ids (nmf : Nat → Int) (ns : Int) (rows : List CsvRow)
    (s : TodoState) (hmono : Monotone nmf) :
    import_csv nmf ns rows s = import_csv nmf ns (rows.map stripIdColumn) s ∧
    ((import_csv nmf ns rows s).tasks.map (fun t => t.id)).Nodup := by
  constructor
  · unfold import_csv
    rw [importCsvLoop_stripId]
  · obtain ⟨k, hk⟩ := importCsvLoop_ids nmf ns rows []
    rw [List.map_nil, List.nil_append] at hk
    have hnodup : ((List.range' 0 k).map (fun j => nmf j + (j : Int))).Nodup := by
      have h1 : List.Pairwise (fun a b => a < b) (List.range' 0 k) :=
        List.pairwise_lt_range' 0 k 1
      have h2 := h1.map (fun j => nmf j + (j : Int))
        (fun a b hab =>
          add_lt_add_of_le_of_lt (hmono (Nat.le_of_lt hab)) (Nat.cast_lt.mpr hab))
      exact h2.imp (fun h => ne_of_lt h)
    unfold import_csv
    cases hloop : importCsvLoop nmf ns rows [] with
    | ok ts' =>
        rw [hloop] at hk
        show ((renormalize ts').map (fun t => t.id)).Nodup
        rw [renorm_map_id]
        show ((exceptOut (Except.ok ts')).map (fun t => t.id)).Nodup
        rw [hk]
        exact hnodup
    | error sofar =>
        rw [hloop] at hk
        show ((exceptOut (Except.error sofar)).map (fun t => t.id)).Nodup
        rw [hk]
        exact hnodup

theorem C9_csv_fresh_ids_witness :
    import_csv (fun _ => 1000) 0
        [⟨some "42", some "a", some "yes", none, none, none, none, none⟩,
         ⟨some "42", some "b", some "no", none, none, none, none, none⟩]
        ⟨[], [], []⟩
      = import_csv (fun _ => 1000) 0
        (List.map stripIdColumn
          [⟨some "42", some "a", some "yes", none, none, none, none, none⟩,
           ⟨some "42", some "b", some "no", none, none, none, none, none⟩])
        ⟨[], [], []⟩ ∧
    ((import_csv (fun _ => 1000) 0
        [⟨some "42", some "a", some "yes", none, none, none, none, none⟩,
         ⟨some "42", some "b", some "no", none, none, none, none, none⟩]
        ⟨[], [], []⟩).tasks.map (fun t => t.id)).Nodup ∧
    (import_csv (fun _ => 1000) 0
        [⟨some "42", some "a", some "yes", none, none, none, none, none⟩,
         ⟨some "42", some "b", some "no", none, none, none, none, none⟩]
        ⟨[], [], []⟩).tasks.map (fun t => (t.id, t.completed)) = [(1000, true), (1001, false)] :=
  ⟨(C9_csv_fresh_ids (fun _ => 1000) 0
      [⟨some "42", some "a", some "yes", none, none, none, none, none⟩,
       ⟨some "42", some "b", some "no", none, none, none, none, none⟩]
      ⟨[], [], []⟩ monotone_const).1,
   (C9_csv_fresh_ids (fun _ => 1000) 0
      [⟨some "42", some "a", some "yes", none, none, none, none, none⟩,
       ⟨some "42", some "b", some "no", none, none, none, none, none⟩]
      ⟨[], [], []⟩ monotone_const).2,
   by decide⟩

lemma lookup_eq_some_of_mem (l : List (Int × Nat))
    (hnd : (l.map Prod.fst).Nodup) (x : Int) (j : Nat) (hmem : (x, j) ∈ l) :
    l.lookup x = some j := by
  induction l with
  | nil => cases hmem
  | cons p rest ih =>
      rcases List.mem_cons.mp hmem with heq | hmem'
      · rw [← heq, List.lookup_cons]
        simp
      · have hx : x ≠ p.1 := by
          intro hx
          have h1 : p.1 ∉ rest.map Prod.fst := by
            rw [List.map_cons] at hnd
            exact (List.nodup_cons.mp hnd).1
          apply h1
          rw [← hx]
          exact List.mem_map_of_mem Prod.fst hmem'
        obtain ⟨p1, p2⟩ := p
        rw [List.lookup_cons]
        have hbeq : (x == p1) = false := beq_eq_false_iff_ne.mpr hx
        rw [hbeq]
        exact ih (by rw [List.map_cons] at hnd; exact (List.nodup_cons.mp hnd).2) hmem'

lemma orderMap_mem_iff (ids : List Int) (x : Int) (j : Nat) :
    (x, j) ∈ orderMap ids ↔ (j, x) ∈ ids.enum := by
  unfold orderMap
  rw [List.mem_reverse, List.mem_map]
  constructor
  · rintro ⟨p, hp, heq⟩
    have h1 : p.2 = x := congrArg Prod.fst heq
    have h2 : p.1 = j := congrArg Prod.snd heq
    have hpe : p = (j, x) := by
      obtain ⟨p1, p2⟩ := p
      simp only at h1 h2
      rw [h1, h2]
    rw [← hpe]
    exact hp
  · intro h
    exact ⟨(j, x), h, rfl⟩

lemma orderMap_keys (ids : List Int) :
    (orderMap ids).map Prod.fst = ids.reverse := by
  unfold orderMap
  rw [List.map_reverse, List.map_map]
  congr 1
  have h : (Prod.fst ∘ fun p : Nat × Int => (p.2, p.1)) = Prod.snd := rfl
  rw [h, List.enum_map_snd]

lemma orderMap_lookup (ids : List Int) (hnd : ids.Nodup) (x : Int) (j : Nat)
    (hj : ids[j]? = some x) : (orderMap ids).lookup x = some j := by
  apply lookup_eq_some_of_mem
  · rw [orderMap_keys]
    exact List.nodup_reverse.mpr hnd
  · rw [orderMap_mem_iff]
    exact List.mem_enum_iff_getElem?.mpr hj

/-- C6 (amended): the source's reorder gives each task whose id occurs in
the sequence the position of that occurrence as provisional `order_index`
while tasks whose ids are absent keep their old `order_index`, and then
resequences stably — so an absent task with a small old `order_index` can
land *before* the sequenced tasks (see the counterexample).  When the
sequence is a duplicate-free enumeration of all current task ids — which
is what the tree hands over when no filter hides rows — the resulting
display order is exactly the sequence, with `order_index` `0 .. N-1`
along it. -/
theorem C6_reorder_applies_sequence (ordered_ids : List Int) (s : TodoState)
    (hnd : ordered_ids.Nodup)
    (hcover : (s.tasks.map (fun t => t.id)).Perm ordered_ids) :
    (displayList (Todo.reorder ordered_ids s).tasks).map (fun t => t.id) = ordered_ids ∧
    displayOrderOk (Todo.reorder ordered_ids s).tasks := by
  have happ : (Todo.reorder ordered_ids s).tasks
      = renormalize (s.tasks.map (fun t =>
          match (orderMap ordered_ids).lookup t.id with
          | some idx => { t with order_index := (idx : Int) }
          | none => t)) := rfl
  have hdok : displayOrderOk (Todo.reorder ordered_ids s).tasks := by
    rw [happ]
    exact displayOrderOk_renorm _
  refine ⟨?_, hdok⟩
  set ts1 := s.tasks.map (fun t =>
      match (orderMap ordered_ids).lookup t.id with
      | some idx => { t with order_index := (idx : Int) }
      | none => t) with hts1
  have hlen : s.tasks.length = ordered_ids.length := by
    have h := hcover.length_eq
    rwa [List.length_map] at h
  have hts1len : ts1.length = ordered_ids.length := by
    rw [hts1, List.length_map, hlen]
  -- every task's id occurs in the sequence, at a looked-up position
  have hpoint : ∀ t ∈ s.tasks, ∃ j, (orderMap ordered_ids).lookup t.id = some j ∧
      ordered_ids[j]? = some t.id := by
    intro t ht
    have hmem : t.id ∈ ordered_ids :=
      hcover.mem_iff.mp (List.mem_map_of_mem (fun t => t.id) ht)
    obtain ⟨j, hj⟩ := List.mem_iff_getElem?.mp hmem
    exact ⟨j, orderMap_lookup ordered_ids hnd t.id j hj, hj⟩
  -- the provisional order_index values are a permutation of 0 .. N-1
  have hperm : (ts1.map (fun t => t.order_index)).Perm (rangeInt ts1.length) := by
    have hcongr : ts1.map (fun t => t.order_index)
        = (s.tasks.map (fun t => t.id)).map (fun x =>
            ((((orderMap ordered_ids).lookup x).getD 0 : Nat) : Int)) := by
      rw [hts1, List.map_map, List.map_map]
      apply List.map_congr_left
      intro t ht
      obtain ⟨j, hj, _⟩ := hpoint t ht
      simp only [Function.comp, hj]
      rfl
    have hseq : ordered_ids.map (fun x =>
        ((((orderMap ordered_ids).lookup x).getD 0 : Nat) : Int))
        = rangeInt ordered_ids.length := by
      apply List.ext_getElem
      · rw [List.length_map]
        unfold rangeInt
        rw [List.length_map, List.length_range]
      · intro j h1 h2
        rw [List.length_map] at h1
        have hj : ordered_ids[j]? = some ordered_ids[j] := List.getElem?_eq_getElem h1
        have hl := orderMap_lookup ordered_ids hnd ordered_ids[j] j hj
        unfold rangeInt
        rw [List.getElem_map, List.getElem_map, List.getElem_range, hl]
        rfl
    have h2 := hcover.map (fun x =>
      ((((orderMap ordered_ids).lookup x).getD 0 : Nat) : Int))
    rw [hseq] at h2
    rw [hcongr, hts1len]
    exact h2
  have hfix : renormalize ts1 = ts1 := renorm_eq_self_of_perm ts1 hperm
  -- elements of ts1 with order_index j carry the id at sequence position j
  have hsel : ∀ u ∈ ts1, ∀ j : Nat, u.order_index = (j : Int) →
      ordered_ids[j]? = some u.id := by
    intro u hu j hj
    rw [hts1] at hu
    obtain ⟨t, ht, rfl⟩ := List.mem_map.mp hu
    obtain ⟨jt, hjt, hjt2⟩ := hpoint t ht
    rw [hjt] at hj ⊢
    simp only at hj
    have hjj : jt = j := by exact_mod_cast hj
    rw [← hjj]
    exact hjt2
  -- conclude: the display list's ids are the sequence
  rw [happ, hfix]
  have hdl : (displayList ts1).map (fun t => t.order_index) = rangeInt ts1.length := by
    have h := hdok
    rw [happ, hfix] at h
    unfold displayOrderOk at h
    exact h
  have hdlperm : (displayList ts1).Perm ts1 := List.perm_insertionSort canonLe ts1
  have hdllen : (displayList ts1).length = ordered_ids.length := by
    rw [hdlperm.length_eq, hts1len]
  apply List.ext_getElem
  · rw [List.length_map, hdllen]
  · intro j h1 h2
    rw [List.length_map, hdllen] at h1
    have hjlt : j < (displayList ts1).length := by rw [hdllen]; exact h1
    have hjts1 : j < ts1.length := by rw [hts1len]; exact h1
    have hoi : (displayList ts1)[j].order_index = (j : Int) := by
      have e1 : ((displayList ts1).map (fun t => t.order_index))[j]?
          = some ((displayList ts1)[j].order_index) := by
        rw [List.getElem?_map, List.getElem?_eq_getElem hjlt]
        rfl
      rw [hdl] at e1
      have e2 : (rangeInt ts1.length)[j]? = some ((j : Nat) : Int) := by
        unfold rangeInt
        rw [List.getElem?_map,
          List.getElem?_eq_getElem (by rw [List.length_range]; exact hjts1)]
        simp [List.getElem_range]
      rw [e2] at e1
      exact (Option.some.inj e1).symm
    have hmem : (displayList ts1)[j] ∈ ts1 :=
      hdlperm.mem_iff.mp (List.getElem_mem hjlt)
    have hid := hsel _ hmem j hoi
    rw [List.getElem_map]
    have hje := List.getElem?_eq_getElem h2
    rw [hje] at hid
    exact (Option.some.inj hid).symm

/-- C6 counterexample: with tasks `A (id 1, order_index 0)` and `B (id 2,
order_index 1)`, `reorder([2])` must — per the claim — give the sequenced
id `2` order_index `0` and put the absent id `1` after it; instead `B`
keeps colliding provisional index `0` with `A`'s old index, the stable
resequencing puts `A` (earlier in the list) first, and the final state has
`A` at `0` and `B` at `1`. -/
theorem C6_counterexample :
    ((Todo.reorder [2]
      ⟨[⟨1, "A", false, 0, "Medium", "", [], 0⟩, ⟨2, "B", false, 0, "Medium", "", [], 1⟩],
       [], []⟩).tasks.map (fun t => (t.id, t.order_index))) = [(1, 0), (2, 1)] ∧
    (displayList (Todo.reorder [2]
      ⟨[⟨1, "A", false, 0, "Medium", "", [], 0⟩, ⟨2, "B", false, 0, "Medium", "", [], 1⟩],
       [], []⟩).tasks).map (fun t => t.id) = [1, 2] := by
  constructor
  · decide
  · decide

theorem C6_reorder_applies_sequence_witness :
    (displayList (Todo.reorder [2, 1]
      ⟨[⟨1, "A", false, 0, "Medium", "", [], 0⟩, ⟨2, "B", false, 0, "Medium", "", [], 1⟩],
       [], []⟩).tasks).map (fun t => t.id) = [2, 1] ∧
    displayOrderOk (Todo.reorder [2, 1]
      ⟨[⟨1, "A", false, 0, "Medium", "", [], 0⟩, ⟨2, "B", false, 0, "Medium", "", [], 1⟩],
       [], []⟩).tasks :=
  C6_reorder_applies_sequence [2, 1]
    ⟨[⟨1, "A", false, 0, "Medium", "", [], 0⟩, ⟨2, "B", false, 0, "Medium", "", [], 1⟩],
     [], []⟩ (by decide) (by decide)

theorem C8_no_empty_tags_witness :
    stateClean ⟨[⟨1, "t", false, 0, "Medium", "", ["home"], 0⟩], [], []⟩ ∧
    FullOp.isJsonImport (.fwd (.toggle [1])) = false ∧
    stateClean (FullOp.apply (.fwd (.toggle [1]))
      ⟨[⟨1, "t", false, 0, "Medium", "", ["home"], 0⟩], [], []⟩) :=
  ⟨by decide, by decide,
   C8_no_empty_tags (.fwd (.toggle [1]))
     ⟨[⟨1, "t", false, 0, "Medium", "", ["home"], 0⟩], [], []⟩ (by decide) (by decide)⟩

end Todo
